import Mathlib

/-!
# `http_service.c` — the connection handler and its JSON field extractor

A shallow embedding of `get_json_string_value` and `handle_client` from
`workshops/Developers Day/Code/http_service.c`, followed by theorems about them.

Conventions of the embedding.

* One `Char` stands for one C `char` (one byte).  The code point `0` is the
  terminator `NUL`.
* A *string* (`const char *` argument, `%s` argument, result of `snprintf`) is
  modelled by its content: the bytes before the terminator.
* An *array* that is written and later read (`buffer`, `received_sentence`,
  `global_hostname`) is modelled by all of its bytes; reading it as a string is
  `cstr`, which stops at the first `NUL`.
* A pointer into a string is an offset (`Nat`) into it; `NULL` is `none`.
* `size_t` values are `Nat`; the only place where the 64-bit range matters is the
  `%zu` conversion of `sscanf`, modelled with the saturation of `strtoul`.
-/

namespace HttpService

/-! ## Constants (lines 10-12) -/

/-- `#define BUFFER_SIZE 4096`. -/
def BUFFER_SIZE : Nat := 4096

/-- `#define MAX_JSON_VALUE_LEN 256`. -/
def MAX_JSON_VALUE_LEN : Nat := 256

/-- The terminator byte of a C string. -/
def NUL : Char := Char.ofNat 0

/-- The double quote character, byte 34. -/
def DQUOTE : Char := Char.ofNat 34

/-! ## C library functions used by the source -/

/-- Reading an array as a C string: the bytes before the first `NUL`. -/
def cstr (mem : List Char) : List Char :=
  mem.takeWhile (fun c => c != NUL)

/-- The `strlen` of an array read as a C string. -/
def strlen (mem : List Char) : Nat :=
  (cstr mem).length

/-- The `strstr` function: offset of the first occurrence of `needle` in `s`, or `none` (NULL). -/
def strstr : List Char → List Char → Option Nat
  | [], needle => if needle.isPrefixOf [] then some 0 else none
  | c :: cs, needle =>
    if needle.isPrefixOf (c :: cs) then some 0
    else (strstr cs needle).map (fun i => i + 1)

/-- The `strchr` function: offset of the first occurrence of `c` in `s`, or `none` (NULL).
The terminator counts as part of the string, so `strchr s NUL` points at the end. -/
def strchr : List Char → Char → Option Nat
  | [], c => if c = NUL then some 0 else none
  | x :: xs, c => if x = c then some 0 else (strchr xs c).map (fun i => i + 1)

/-- The `snprintf` function into a buffer of `size` bytes, given the complete formatted output:
at most `size - 1` bytes are stored (followed by the terminator). -/
def snprintf (size : Nat) (formatted : List Char) : List Char :=
  formatted.take (size - 1)

/-- The `strncpy` function: exactly `n` bytes of `dest` are overwritten, with the bytes of `src`
and, when `src` is shorter than `n`, with `NUL` padding. -/
def strncpy (dest src : List Char) (n : Nat) : List Char :=
  (src.take n ++ List.replicate (n - src.length) NUL) ++ dest.drop n

/-- The white-space class of `isspace` in the C locale. -/
def isspace (c : Char) : Bool :=
  c.toNat = 32 || (9 ≤ c.toNat && c.toNat ≤ 13)

/-- Numeric value of a run of decimal digits. -/
def decimal_value (ds : List Char) : Nat :=
  ds.foldl (fun acc d => 10 * acc + (d.toNat - 48)) 0

/-- The `%zu` conversion of `sscanf` on a 64-bit target: skip white space, accept an optional
sign, read the longest run of decimal digits, convert as `strtoul` does (saturating at
`2^64 - 1`, negating modulo `2^64` after a minus sign).  `none` is a matching failure. -/
def scan_zu (s : List Char) : Option Nat :=
  let s1 := s.dropWhile isspace
  let neg : Bool := s1.head? = some (Char.ofNat 45)
  let s2 := if s1.head? = some (Char.ofNat 45) ∨ s1.head? = some (Char.ofNat 43) then s1.tail else s1
  let ds := s2.takeWhile Char.isDigit
  if ds = [] then none
  else
    let v := decimal_value ds
    if 2 ^ 64 ≤ v then some (2 ^ 64 - 1)
    else some (if neg then (2 ^ 64 - v) % 2 ^ 64 else v)

/-- Strip a literal part of a `scanf` format from the input; `none` when the input differs. -/
def match_literal : List Char → List Char → Option (List Char)
  | [], s => some s
  | _ :: _, [] => none
  | f :: fs, c :: cs => if f = c then match_literal fs cs else none

/-- The call `sscanf(s, "Content-Length: %zu", &content_length)`: returns the value of
`content_length` after the call, given its value before.  The literal `Content-Length:` must
match, the blank of the format skips any white space, then `%zu` converts; on any failure the
variable keeps its previous value. -/
def sscanf_content_length (s : List Char) (content_length : Nat) : Nat :=
  match match_literal "Content-Length:".toList s with
  | none => content_length
  | some rest =>
    match scan_zu (rest.dropWhile isspace) with
    | none => content_length
    | some v => v

/-- The `%zu` conversion of `printf`: the decimal digits of `n`. -/
def print_zu (n : Nat) : List Char :=
  Nat.toDigits 10 n

/-! ## `get_json_string_value` (lines 27-57) -/

/-- Lines 28-30: `search_key` after `snprintf(search_key, sizeof(search_key), "\"%s\": \"", key)`
into `char search_key[128]`; a string, like `key`. -/
def search_key (key : List Char) : List Char :=
  snprintf 128 (DQUOTE :: key ++ "\": \"".toList)

/-- `get_json_string_value(json_str, key, value_buffer, buffer_size)`.
Returns the `int` result together with the content of `value_buffer` after the call. -/
def get_json_string_value (json_str key value_buffer : List Char) (buffer_size : Nat) :
    Int × List Char :=
  -- char *start = strstr(json_str, search_key);
  match strstr json_str (search_key key) with
  | none => (-1, value_buffer)
  | some start0 =>
    -- start += strlen(search_key);
    let start := start0 + (search_key key).length
    -- char *end = strchr(start, '"');
    match strchr (json_str.drop start) DQUOTE with
    | none => (-1, value_buffer)
    | some e =>
      -- size_t len = end - start;
      let len := (start + e) - start
      if len ≥ buffer_size then (-1, value_buffer)
      else
        -- strncpy(value_buffer, start, len); value_buffer[len] = '\0';
        (0, (strncpy value_buffer (json_str.drop start) len).set len NUL)

/-! ## `handle_client` (lines 65-164) -/

/-- Outcome of `recv(new_socket, buffer, BUFFER_SIZE - 1, 0)`: `-1`, or the bytes stored. -/
inductive RecvResult where
  | error : RecvResult
  | data (bytes : List Char) : RecvResult
  deriving DecidableEq, Repr

/-- What the handler does on the socket, in order. -/
inductive Action where
  | send (bytes : List Char) : Action
  | close : Action
  deriving DecidableEq, Repr

/-- The string in `global_hostname[256]` as every handler reads it: `main` stores `NUL` in
`global_hostname[255]` (line 181), so the string ends at the first `NUL` among the first 255
bytes, or after them. -/
def hostname_string (global_hostname : List Char) : List Char :=
  cstr (global_hostname.take 255)

/-- Lines 101-115: the pair `(http_body, content_length)` after the framing block. -/
def parse_request (buffer : List Char) : Option Nat × Nat :=
  -- char *post_method = strstr(buffer, "POST ");
  let post_method := strstr buffer "POST ".toList
  -- char *content_length_header = strstr(buffer, "Content-Length: ");
  let content_length_header := strstr buffer "Content-Length: ".toList
  match post_method, content_length_header with
  | some _, some clh =>
    -- sscanf(content_length_header, "Content-Length: %zu", &content_length);
    let content_length := sscanf_content_length (buffer.drop clh) 0
    -- http_body = strstr(buffer, "\r\n\r\n"); if (http_body) http_body += 4;
    let http_body := (strstr buffer "\r\n\r\n".toList).map (fun i => i + 4)
    (http_body, content_length)
  | _, _ => (none, 0)

/-- Lines 117-128: the array `received_sentence` after the extraction block. -/
def received_sentence (buffer : List Char) : List Char :=
  -- char received_sentence[MAX_JSON_VALUE_LEN] = {0};
  let zeroed := List.replicate MAX_JSON_VALUE_LEN NUL
  match parse_request buffer with
  | (some http_body, content_length) =>
    if content_length > 0 then
      (get_json_string_value (buffer.drop http_body) "sentence".toList zeroed MAX_JSON_VALUE_LEN).2
    else zeroed
  | (none, _) => zeroed

/-- Line 133: `sentence_to_send`. -/
def sentence_to_send (buffer : List Char) : List Char :=
  if strlen (received_sentence buffer) > 0 then cstr (received_sentence buffer)
  else "No sentence received.".toList

/-- Lines 136-138: the complete output of the first format, before `snprintf` bounds it. -/
def json_response_formatted (global_hostname buffer : List Char) : List Char :=
  "\x7b\"hostname\": \"".toList ++ hostname_string global_hostname
    ++ "\", \"sentence\": \"".toList ++ sentence_to_send buffer ++ "\"\x7d".toList

/-- Lines 131-138: `json_response` after `snprintf(json_response, sizeof(json_response), ...)`. -/
def json_response (global_hostname buffer : List Char) : List Char :=
  snprintf BUFFER_SIZE (json_response_formatted global_hostname buffer)

/-- Lines 143-150: the complete output of the second format, before `snprintf` bounds it. -/
def http_response_formatted (global_hostname buffer : List Char) : List Char :=
  -- size_t json_len = strlen(json_response);
  let json_len := strlen (json_response global_hostname buffer)
  "HTTP/1.1 200 OK\r\n".toList
    ++ "Content-Type: application/json\r\n".toList
    ++ "Content-Length: ".toList ++ print_zu json_len ++ "\r\n".toList
    ++ "Connection: close\r\n".toList
    ++ "\r\n".toList
    ++ cstr (json_response global_hostname buffer)

/-- Lines 140-150: `http_response` after `snprintf(http_response, sizeof(http_response), ...)`. -/
def http_response (global_hostname buffer : List Char) : List Char :=
  snprintf BUFFER_SIZE (http_response_formatted global_hostname buffer)

/-- `handle_client`: the socket actions of one handler, given the content of `global_hostname`
and the outcome of its single `recv`.  `buffer` is zero-initialised and terminated at
`bytes_received`, and is only ever read as a string, so it is `cstr bytes`.  The `send` passes
`strlen(http_response)` bytes of `http_response`.  Logging to the standard streams is left out. -/
def handle_client (global_hostname : List Char) (r : RecvResult) : List Action :=
  match r with
  -- if (bytes_received == -1) { perror(...); close(new_socket); return NULL; }
  | RecvResult.error => [Action.close]
  | RecvResult.data bytes =>
    let buffer := cstr bytes
    [Action.send (cstr (http_response global_hostname buffer)), Action.close]

/-! ## Vocabulary of the specification -/

/-- The literal pattern `"<key>": "` of the specification. -/
def key_pattern (key : List Char) : List Char :=
  DQUOTE :: key ++ "\": \"".toList

/-- The occurrence of `n` right after `p` in `p ++ n ++ t` is the first one: no occurrence
starts at an earlier offset. -/
def FirstOcc (n p t : List Char) : Prop :=
  ∀ i, i < p.length → ¬ n <+: (p ++ n ++ t).drop i

/-- The text `s` begins with a positive decimal integer. -/
def PositiveDecimal (s : List Char) : Prop :=
  s.takeWhile Char.isDigit ≠ [] ∧ 0 < decimal_value (s.takeWhile Char.isDigit)

/-- The JSON object of the specification: `{"hostname": "<h>", "sentence": "<v>"}`. -/
def json_object (h v : List Char) : List Char :=
  "\x7b\"hostname\": \"".toList ++ h ++ "\", \"sentence\": \"".toList ++ v ++ "\"\x7d".toList

/-- The HTTP/1.1 response of the specification around a body. -/
def http_200 (body : List Char) : List Char :=
  "HTTP/1.1 200 OK\r\nContent-Type: application/json\r\nContent-Length: ".toList
    ++ Nat.toDigits 10 body.length
    ++ "\r\nConnection: close\r\n\r\n".toList ++ body

/-- The placeholder of the specification. -/
def PLACEHOLDER : List Char := "No sentence received.".toList

/-- The sentence extracted from a request, when the extraction is attempted (a body was found
and the declared length is not zero) and `get_json_string_value` returns success. -/
def extracted_sentence (buffer : List Char) : Option (List Char) :=
  match parse_request buffer with
  | (some http_body, content_length) =>
    if 0 < content_length then
      if (get_json_string_value (buffer.drop http_body) "sentence".toList
            (List.replicate MAX_JSON_VALUE_LEN NUL) MAX_JSON_VALUE_LEN).1 = 0 then
        some (cstr (get_json_string_value (buffer.drop http_body) "sentence".toList
            (List.replicate MAX_JSON_VALUE_LEN NUL) MAX_JSON_VALUE_LEN).2)
      else none
    else none
  | (none, _) => none

/-- The value of the `sentence` field according to the specification: the extracted sentence
when there is one and it is not empty, the placeholder otherwise. -/
def sentence_field (buffer : List Char) : List Char :=
  match extracted_sentence buffer with
  | some s => if s = [] then PLACEHOLDER else s
  | none => PLACEHOLDER

/-! ## Sample inputs -/

/-- A sample content of `global_hostname`. -/
def sample_hostname : List Char := "myhost".toList

/-- The head of a sample POST request, up to the blank line. -/
def sample_head : List Char := "POST /echo HTTP/1.1\r\nContent-Length: 27".toList

/-- A sample POST request with the sentence `Hello world`. -/
def sample_post : List Char :=
  sample_head ++ "\r\n\r\n".toList ++ "\x7b\"sentence\": \"Hello world\"\x7d".toList

/-- A sample GET request, without body. -/
def sample_get : List Char := "GET /echo HTTP/1.1\r\nHost: example\r\n\r\n".toList

/-- A key of 123 bytes: with the quotes, colon and blank around it the pattern needs 128
bytes, one more than `search_key` holds. -/
def long_key : List Char := List.replicate 123 (Char.ofNat 107)

/-- A text in which `long_key` is followed by `": b"`: the value `b` is not quoted. -/
def long_key_text : List Char :=
  DQUOTE :: long_key ++ "\": b\"".toList

/-- A sample POST request whose sentence has exactly 256 bytes. -/
def sample_post_256 : List Char :=
  sample_head ++ "\r\n\r\n".toList
    ++ ("\x7b\"sentence\": \"".toList ++ (List.replicate 256 (Char.ofNat 120)
    ++ DQUOTE :: "\x7d".toList))

/-- A sample POST request whose sentence is empty. -/
def sample_post_empty : List Char :=
  sample_head ++ "\r\n\r\n".toList ++ "\x7b\"sentence\": \"\"\x7d".toList

/-- The sample POST request with another declared length. -/
def sample_post_declared_5 : List Char :=
  "POST /echo HTTP/1.1\r\nContent-Length: 5".toList ++ "\r\n\r\n".toList
    ++ "\x7b\"sentence\": \"Hello world\"\x7d".toList

/-- The sample POST request with a `NUL` byte in its request line. -/
def sample_post_with_NUL : List Char :=
  "POST /echo".toList ++ NUL :: " HTTP/1.1\r\nContent-Length: 27".toList ++ "\r\n\r\n".toList
    ++ "\x7b\"sentence\": \"Hello world\"\x7d".toList

instance (n p t : List Char) : Decidable (FirstOcc n p t) := by
  unfold FirstOcc; infer_instance

instance (s : List Char) : Decidable (PositiveDecimal s) := by
  unfold PositiveDecimal; infer_instance



/-! ## Reading arrays as strings -/

theorem cstr_initial (mem : List Char) : cstr mem <+: mem :=
  List.takeWhile_prefix _

theorem nul_not_mem_cstr (mem : List Char) : NUL ∉ cstr mem := by
  intro h
  have := List.mem_takeWhile_imp h
  simp at this

theorem cstr_eq_self {s : List Char} (h : NUL ∉ s) : cstr s = s := by
  unfold cstr
  rw [List.takeWhile_eq_self_iff]
  intro c hc
  have : c ≠ NUL := fun e => h (e ▸ hc)
  simpa using this

theorem cstr_append_nul {v : List Char} (r : List Char) (h : NUL ∉ v) :
    cstr (v ++ NUL :: r) = v := by
  induction v with
  | nil => simp [cstr]
  | cons c cs ih =>
    have hc : c ≠ NUL := fun e => h (by simp [e])
    have hcs : NUL ∉ cs := fun m => h (List.mem_cons_of_mem _ m)
    have := ih hcs
    simp only [cstr] at this ⊢
    simp [List.takeWhile_cons, hc, this]

theorem cstr_replicate_nul (n : Nat) : cstr (List.replicate n NUL) = [] := by
  cases n with
  | zero => rfl
  | succ n => simp [cstr, List.replicate_succ]

/-! ## `strstr` -/

theorem strstr_le {n : List Char} : ∀ {h : List Char} {i : Nat},
    strstr h n = some i → i + n.length ≤ h.length := by
  intro h
  induction h with
  | nil =>
    intro i hi
    unfold strstr at hi
    split at hi
    · rename_i hp
      have : n = [] := by simpa using hp
      cases hi
      simp [this]
    · cases hi
  | cons c cs ih =>
    intro i hi
    unfold strstr at hi
    split at hi
    · rename_i hp
      cases hi
      have := (List.isPrefixOf_iff_prefix.mp hp).length_le
      simpa using this
    · cases hs : strstr cs n with
      | none => simp [hs] at hi
      | some j =>
        simp [hs] at hi
        have := ih hs
        subst hi
        simp only [List.length_cons]
        omega

theorem strstr_mono {n : List Char} : ∀ {s h : List Char} {i : Nat},
    strstr s n = some i → s <+: h → strstr h n = some i := by
  intro s
  induction s with
  | nil =>
    intro h i hi _
    unfold strstr at hi
    split at hi
    · rename_i hp
      have hn : n = [] := by simpa using hp
      cases hi
      subst hn
      cases h <;> simp [strstr]
    · cases hi
  | cons c cs ih =>
    intro h i hi hp
    obtain ⟨r, rfl⟩ := hp
    have hle := strstr_le hi
    unfold strstr at hi
    simp only [List.cons_append]
    unfold strstr
    split at hi
    · rename_i hpre
      cases hi
      have h1 : n <+: c :: cs := List.isPrefixOf_iff_prefix.mp hpre
      have h2 : n <+: c :: (cs ++ r) := h1.trans ⟨r, by simp⟩
      simp [List.isPrefixOf_iff_prefix.mpr h2]
    · rename_i hpre
      have hnot : ¬ n.isPrefixOf (c :: (cs ++ r)) = true := by
        intro hq
        have h2 : n <+: (c :: cs) ++ r := by simpa using List.isPrefixOf_iff_prefix.mp hq
        have h3 : (c :: cs) <+: (c :: cs) ++ r := List.prefix_append _ _
        have h4 : n <+: c :: cs := List.prefix_of_prefix_length_le h2 h3 (by omega)
        exact hpre (List.isPrefixOf_iff_prefix.mpr h4)
      cases hs : strstr cs n with
      | none => simp [hs] at hi
      | some j =>
        simp [hs] at hi
        simp [hnot, ih hs (List.prefix_append cs r), hi]

theorem strstr_of_isPrefix {n h : List Char} (hp : n <+: h) : strstr h n = some 0 := by
  have hb : n.isPrefixOf h = true := List.isPrefixOf_iff_prefix.mpr hp
  cases h with
  | nil => unfold strstr; rw [if_pos hb]
  | cons c cs => unfold strstr; rw [if_pos hb]

theorem strstr_cons_of_not_isPrefix {n cs : List Char} {c : Char} (hp : ¬ n <+: c :: cs) :
    strstr (c :: cs) n = (strstr cs n).map (fun i => i + 1) := by
  have hb : ¬ n.isPrefixOf (c :: cs) = true := fun hq => hp (List.isPrefixOf_iff_prefix.mp hq)
  rw [strstr, if_neg hb]

theorem strstr_first {n p t : List Char} (hf : FirstOcc n p t) :
    strstr (p ++ n ++ t) n = some p.length := by
  induction p with
  | nil =>
    apply strstr_of_isPrefix
    simp
  | cons c cs ih =>
    have h0 : ¬ n <+: c :: (cs ++ n ++ t) := by
      have := hf 0 (by simp)
      simpa using this
    have hrest : FirstOcc n cs t := by
      intro i hi
      have := hf (i + 1) (by simpa using hi)
      simpa using this
    have e : (c :: cs) ++ n ++ t = c :: (cs ++ n ++ t) := by simp
    rw [e, strstr_cons_of_not_isPrefix h0, ih hrest]
    rfl

theorem strstr_some {n : List Char} : ∀ {h : List Char} {i : Nat}, strstr h n = some i →
    ∃ p t, h = p ++ n ++ t ∧ p.length = i ∧ FirstOcc n p t := by
  intro h
  induction h with
  | nil =>
    intro i hi
    unfold strstr at hi
    split at hi
    · rename_i hp
      have hn : n = [] := by simpa using hp
      cases hi
      exact ⟨[], [], by simp [hn], rfl, fun i hi => by simp at hi⟩
    · cases hi
  | cons c cs ih =>
    intro i hi
    unfold strstr at hi
    split at hi
    · rename_i hp
      cases hi
      obtain ⟨t, ht⟩ := List.isPrefixOf_iff_prefix.mp hp
      exact ⟨[], t, by simp [ht], rfl, fun i hi => by simp at hi⟩
    · rename_i hp
      cases hs : strstr cs n with
      | none => simp [hs] at hi
      | some j =>
        simp [hs] at hi
        obtain ⟨p, t, hpt, hlen, hfo⟩ := ih hs
        refine ⟨c :: p, t, by simp [hpt], by simp [hlen, hi], ?_⟩
        intro k hk
        cases k with
        | zero =>
          intro hq
          apply hp
          apply List.isPrefixOf_iff_prefix.mpr
          simpa [hpt] using hq
        | succ k =>
          have := hfo k (by simpa using hk)
          simpa using this

theorem strstr_eq_none_of_absent {n h : List Char} (hn : ¬ n <:+: h) : strstr h n = none := by
  cases hs : strstr h n with
  | none => rfl
  | some i =>
    exfalso
    obtain ⟨p, t, hpt, _, _⟩ := strstr_some hs
    exact hn ⟨p, t, hpt.symm⟩

theorem infix_of_strstr_none {n h : List Char} (hs : strstr h n = none) : ¬ n <:+: h := by
  induction h with
  | nil =>
    unfold strstr at hs
    split at hs
    · cases hs
    · rename_i hp
      intro hq
      apply hp
      have : n = [] := List.eq_nil_of_infix_nil hq
      simp [this]
  | cons c cs ih =>
    unfold strstr at hs
    split at hs
    · cases hs
    · rename_i hp
      cases hc : strstr cs n with
      | some j => simp [hc] at hs
      | none =>
        intro hq
        rcases List.infix_cons_iff.mp hq with h1 | h1
        · exact hp (List.isPrefixOf_iff_prefix.mpr h1)
        · exact ih hc h1

/-- An occurrence found in a prefix of `p ++ n ++ t` is the first occurrence of the whole. -/
theorem strstr_within_initial {n p t s : List Char} {i : Nat} (hf : FirstOcc n p t)
    (hp : s <+: p ++ n ++ t) (hs : strstr s n = some i) :
    i = p.length ∧ ∃ t', s = p ++ n ++ t' ∧ t' <+: t := by
  have h1 := strstr_mono hs hp
  rw [strstr_first hf] at h1
  have hi : i = p.length := by cases h1; rfl
  refine ⟨hi, ?_⟩
  have hle := strstr_le hs
  have h2 : p ++ n <+: p ++ n ++ t := List.prefix_append _ _
  have h3 : p ++ n <+: s := List.prefix_of_prefix_length_le h2 hp (by simp; omega)
  obtain ⟨t', ht'⟩ := h3
  refine ⟨t', ht'.symm, ?_⟩
  rw [← ht'] at hp
  exact (List.prefix_append_right_inj (p ++ n)).mp hp

/-! ## `strchr` -/

theorem strchr_first {c : Char} {v : List Char} (r : List Char) (hc : c ∉ v) :
    strchr (v ++ c :: r) c = some v.length := by
  induction v with
  | nil => simp [strchr]
  | cons x xs ih =>
    have hx : x ≠ c := fun e => hc (by simp [e])
    have hxs : c ∉ xs := fun m => hc (List.mem_cons_of_mem _ m)
    simp [strchr, hx, ih hxs]

theorem strchr_some {c : Char} (hn : c ≠ NUL) : ∀ {s : List Char} {e : Nat},
    strchr s c = some e → ∃ v r, s = v ++ c :: r ∧ c ∉ v ∧ v.length = e := by
  intro s
  induction s with
  | nil =>
    intro e he
    simp [strchr, hn] at he
  | cons x xs ih =>
    intro e he
    unfold strchr at he
    split at he
    · rename_i hx
      cases he
      exact ⟨[], xs, by simp [hx], by simp, rfl⟩
    · rename_i hx
      cases hs : strchr xs c with
      | none => simp [hs] at he
      | some j =>
        simp [hs] at he
        obtain ⟨v, r, hv, hcv, hlen⟩ := ih hs
        refine ⟨x :: v, r, by simp [hv], ?_, by simp [hlen, he]⟩
        intro m
        rcases List.mem_cons.mp m with h1 | h1
        · exact hx h1.symm
        · exact hcv h1

theorem strchr_none {c : Char} : ∀ {s : List Char}, strchr s c = none → c ∉ s := by
  intro s
  induction s with
  | nil => intro _; simp
  | cons x xs ih =>
    intro he
    unfold strchr at he
    split at he
    · cases he
    · rename_i hx
      cases hs : strchr xs c with
      | some j => simp [hs] at he
      | none =>
        intro m
        rcases List.mem_cons.mp m with h1 | h1
        · exact hx h1.symm
        · exact ih hs h1

/-- The text before the first occurrence of a byte is determined by the list. -/
theorem split_unique {c : Char} : ∀ {v w : List Char} {r q : List Char},
    c ∉ v → c ∉ w → v ++ c :: r = w ++ c :: q → v = w := by
  intro v
  induction v with
  | nil =>
    intro w r q _ hw he
    cases w with
    | nil => rfl
    | cons y ys =>
      exfalso
      simp at he
      exact hw (by simp [he.1])
  | cons x xs ih =>
    intro w r q hv hw he
    cases w with
    | nil =>
      exfalso
      simp at he
      exact hv (by simp [he.1])
    | cons y ys =>
      simp at he
      have hxs : c ∉ xs := fun m => hv (List.mem_cons_of_mem _ m)
      have hys : c ∉ ys := fun m => hw (List.mem_cons_of_mem _ m)
      rw [he.1, ih hxs hys he.2]

theorem DQUOTE_ne_NUL : DQUOTE ≠ NUL := by decide

/-! ## `get_json_string_value` -/

/-- What `strncpy` followed by the terminator leaves in the destination. -/
theorem strncpy_set {vb v : List Char} (d : Char) (t : List Char) (h : v.length < vb.length) :
    (strncpy vb (v ++ d :: t) v.length).set v.length NUL = v ++ NUL :: vb.drop (v.length + 1) := by
  have e1 : (v ++ d :: t).take v.length = v := by simp
  have e2 : v.length - (v ++ d :: t).length = 0 := by simp
  unfold strncpy
  rw [e1, e2]
  simp only [List.replicate_zero, List.append_nil]
  rw [List.set_append_right _ _ (Nat.le_refl _)]
  simp only [Nat.sub_self]
  cases hd : vb.drop v.length with
  | nil =>
    have := List.drop_eq_nil_iff.mp hd
    omega
  | cons y ys =>
    have : vb.drop (v.length + 1) = ys := by
      rw [← List.drop_drop, hd]
      rfl
    simp [this]

/-- Success: the value after the first occurrence of `search_key`, up to the next quote. -/
theorem get_json_string_value_found {text key vb p v t : List Char} {n : Nat}
    (ht : text = p ++ search_key key ++ (v ++ DQUOTE :: t))
    (hf : FirstOcc (search_key key) p (v ++ DQUOTE :: t))
    (hq : DQUOTE ∉ v) (hlen : v.length < n) :
    get_json_string_value text key vb n
      = (0, (strncpy vb (v ++ DQUOTE :: t) v.length).set v.length NUL) := by
  have hs : strstr text (search_key key) = some p.length := by rw [ht]; exact strstr_first hf
  have hd : text.drop (p.length + (search_key key).length) = v ++ DQUOTE :: t := by
    rw [ht, ← List.length_append, List.drop_left]
  have hc : strchr (v ++ DQUOTE :: t) DQUOTE = some v.length := strchr_first t hq
  unfold get_json_string_value
  simp only [hs, hd, hc, Nat.add_sub_cancel_left]
  rw [if_neg (by omega)]

/-- Every call either fails and leaves the destination alone, or succeeds on a text of the
successful shape. -/
theorem get_json_string_value_cases (text key vb : List Char) (n : Nat) :
    get_json_string_value text key vb n = (-1, vb) ∨
    ∃ p v t, text = p ++ search_key key ++ (v ++ DQUOTE :: t)
      ∧ FirstOcc (search_key key) p (v ++ DQUOTE :: t) ∧ DQUOTE ∉ v ∧ v.length < n
      ∧ get_json_string_value text key vb n
          = (0, (strncpy vb (v ++ DQUOTE :: t) v.length).set v.length NUL) := by
  cases hs : strstr text (search_key key) with
  | none => left; simp [get_json_string_value, hs]
  | some i =>
    obtain ⟨p, u, hpu, hpl, hfo⟩ := strstr_some hs
    have hd : text.drop (i + (search_key key).length) = u := by
      rw [hpu, ← hpl, ← List.length_append, List.drop_left]
    cases hc : strchr u DQUOTE with
    | none => left; simp [get_json_string_value, hs, hd, hc]
    | some e =>
      obtain ⟨v, t, hu, hqv, hvl⟩ := strchr_some DQUOTE_ne_NUL hc
      by_cases hn : e ≥ n
      · left; simp [get_json_string_value, hs, hd, hc, hn]
      · right
        subst hu
        exact ⟨p, v, t, hpu, hfo, hqv, by omega,
          get_json_string_value_found hpu hfo hqv (by omega)⟩

theorem search_key_eq {key : List Char} (hk : key.length ≤ 122) :
    search_key key = key_pattern key := by
  unfold search_key snprintf key_pattern
  apply List.take_of_length_le
  have : ("\": \"".toList).length = 4 := by decide
  simp only [List.length_cons, List.length_append, this]
  omega

theorem search_key_sentence : search_key "sentence".toList = key_pattern "sentence".toList := by
  decide

/-! ## Digits printed by `%zu` -/

theorem toDigitsCore_length_le (b : Nat) : ∀ (fuel n : Nat) (ds : List Char),
    (Nat.toDigitsCore b fuel n ds).length ≤ fuel + ds.length := by
  intro fuel
  induction fuel with
  | zero => intro n ds; simp [Nat.toDigitsCore]
  | succ f ih =>
    intro n ds
    unfold Nat.toDigitsCore
    simp only
    split
    · simp only [List.length_cons]; omega
    · have := ih (n / b) (Nat.digitChar (n % b) :: ds)
      simp only [List.length_cons] at this
      omega

theorem digitChar_ne_NUL : ∀ k, k < 10 → Nat.digitChar k ≠ NUL := by
  decide

theorem toDigitsCore_no_NUL : ∀ (fuel n : Nat) (ds : List Char),
    NUL ∉ ds → NUL ∉ Nat.toDigitsCore 10 fuel n ds := by
  intro fuel
  induction fuel with
  | zero => intro n ds h; simpa [Nat.toDigitsCore] using h
  | succ f ih =>
    intro n ds h
    have hd : NUL ∉ Nat.digitChar (n % 10) :: ds := by
      intro m
      rcases List.mem_cons.mp m with h1 | h1
      · exact digitChar_ne_NUL _ (Nat.mod_lt _ (by decide)) h1.symm
      · exact h h1
    unfold Nat.toDigitsCore
    simp only
    split
    · exact hd
    · exact ih _ _ hd

theorem print_zu_length_le (n : Nat) : (print_zu n).length ≤ n + 1 := by
  have := toDigitsCore_length_le 10 (n + 1) n []
  simpa [print_zu, Nat.toDigits] using this

theorem print_zu_no_NUL (n : Nat) : NUL ∉ print_zu n :=
  toDigitsCore_no_NUL (n + 1) n [] (by simp)

/-! ## The response of `handle_client` -/

theorem hostname_string_length (g : List Char) : (hostname_string g).length ≤ 255 := by
  have h1 := (cstr_initial (g.take 255)).length_le
  have h2 := List.length_take_le 255 g
  unfold hostname_string
  omega

theorem hostname_string_no_NUL (g : List Char) : NUL ∉ hostname_string g :=
  nul_not_mem_cstr _

/-- Every string of at most 255 bytes is the hostname string of some content of the array:
of itself, followed by anything after a terminator. -/
theorem hostname_string_of_string {h : List Char} (r : List Char) (hn : NUL ∉ h)
    (hl : h.length ≤ 255) : hostname_string (h ++ NUL :: r) = h := by
  unfold hostname_string
  rcases Nat.lt_or_ge h.length 255 with hlt | hge
  · have e : (h ++ NUL :: r).take 255 = h ++ NUL :: r.take (255 - h.length - 1) := by
      rw [List.take_append_eq_append_take, List.take_of_length_le hl]
      have : 255 - h.length = (255 - h.length - 1) + 1 := by omega
      rw [this, List.take_succ_cons]
      simp
    rw [e, cstr_append_nul _ hn]
  · have e : (h ++ NUL :: r).take 255 = h := by
      have : h.length = 255 := by omega
      rw [← this, List.take_left]
    rw [e, cstr_eq_self hn]

theorem cstr_append_nul_length_le (v r : List Char) : (cstr (v ++ NUL :: r)).length ≤ v.length := by
  induction v with
  | nil => simp [cstr]
  | cons c cs ih =>
    simp only [cstr] at ih ⊢
    simp only [List.cons_append, List.takeWhile_cons]
    split
    · simp only [List.length_cons]; omega
    · simp

/-- The array `received_sentence` is still zeroed, or holds a value of fewer than 256 bytes
followed by the terminator. -/
theorem received_sentence_cases (buffer : List Char) :
    received_sentence buffer = List.replicate MAX_JSON_VALUE_LEN NUL ∨
    ∃ hb cl p v t, parse_request buffer = (some hb, cl) ∧ 0 < cl
      ∧ buffer.drop hb = p ++ search_key "sentence".toList ++ (v ++ DQUOTE :: t)
      ∧ FirstOcc (search_key "sentence".toList) p (v ++ DQUOTE :: t)
      ∧ DQUOTE ∉ v ∧ v.length < 256
      ∧ received_sentence buffer = v ++ NUL :: List.replicate (255 - v.length) NUL := by
  unfold received_sentence
  rcases hp : parse_request buffer with ⟨hb, cl⟩
  cases hb with
  | none => left; rfl
  | some hb =>
    simp only
    by_cases hcl : cl > 0
    · rw [if_pos hcl]
      rcases get_json_string_value_cases (buffer.drop hb) "sentence".toList
          (List.replicate MAX_JSON_VALUE_LEN NUL) MAX_JSON_VALUE_LEN with h | h
      · left; rw [h]
      · obtain ⟨p, v, t, h1, h2, h3, h4, h5⟩ := h
        right
        refine ⟨hb, cl, p, v, t, rfl, hcl, h1, h2, h3, h4, ?_⟩
        rw [h5]
        simp only
        rw [strncpy_set DQUOTE t (by simpa using h4)]
        have : MAX_JSON_VALUE_LEN - (v.length + 1) = 255 - v.length := by
          unfold MAX_JSON_VALUE_LEN at *; omega
        simp [List.drop_replicate, this]
    · rw [if_neg hcl]
      left; rfl

theorem PLACEHOLDER_no_NUL : NUL ∉ PLACEHOLDER := by decide

theorem sentence_to_send_length (buffer : List Char) : (sentence_to_send buffer).length ≤ 255 := by
  unfold sentence_to_send
  split
  · rcases received_sentence_cases buffer with h | ⟨_, _, _, v, _, _, _, _, _, _, hv, h⟩
    · rw [h, cstr_replicate_nul]; simp
    · rw [h]
      have := cstr_append_nul_length_le v (List.replicate (255 - v.length) NUL)
      omega
  · decide

theorem sentence_to_send_no_NUL (buffer : List Char) : NUL ∉ sentence_to_send buffer := by
  unfold sentence_to_send
  split
  · exact nul_not_mem_cstr _
  · exact PLACEHOLDER_no_NUL

theorem json_response_formatted_length (g buffer : List Char) :
    (json_response_formatted g buffer).length ≤ 542 := by
  have h1 := hostname_string_length g
  have h2 := sentence_to_send_length buffer
  have e1 : ("\x7b\"hostname\": \"".toList).length = 14 := by decide
  have e2 : ("\", \"sentence\": \"".toList).length = 16 := by decide
  have e3 : ("\"\x7d".toList).length = 2 := by decide
  unfold json_response_formatted
  simp only [List.length_append, e1, e2, e3]
  omega

theorem json_response_eq (g buffer : List Char) :
    json_response g buffer = json_object (hostname_string g) (sentence_to_send buffer) := by
  have h := json_response_formatted_length g buffer
  unfold json_response snprintf
  rw [List.take_of_length_le (by unfold BUFFER_SIZE; omega)]
  rfl

theorem json_object_no_NUL {h v : List Char} (hh : NUL ∉ h) (hv : NUL ∉ v) :
    NUL ∉ json_object h v := by
  have e1 : NUL ∉ "\x7b\"hostname\": \"".toList := by decide
  have e2 : NUL ∉ "\", \"sentence\": \"".toList := by decide
  have e3 : NUL ∉ "\"\x7d".toList := by decide
  unfold json_object
  simp only [List.mem_append, not_or]
  exact ⟨⟨⟨⟨e1, hh⟩, e2⟩, hv⟩, e3⟩

theorem json_response_no_NUL (g buffer : List Char) : NUL ∉ json_response g buffer := by
  rw [json_response_eq]
  exact json_object_no_NUL (hostname_string_no_NUL g) (sentence_to_send_no_NUL buffer)

theorem http_response_formatted_eq (g buffer : List Char) :
    http_response_formatted g buffer = http_200 (json_response g buffer) := by
  unfold http_response_formatted strlen http_200 print_zu
  rw [cstr_eq_self (json_response_no_NUL g buffer)]
  simp only [List.append_assoc]
  rfl

theorem http_response_formatted_length (g buffer : List Char) :
    (http_response_formatted g buffer).length ≤ 1173 := by
  have h0 : (json_response g buffer).length ≤ 542 := by
    have := json_response_formatted_length g buffer
    rw [json_response_eq]
    exact this
  have h1 := print_zu_length_le (json_response g buffer).length
  have e1 : ("HTTP/1.1 200 OK\r\nContent-Type: application/json\r\nContent-Length: ".toList).length
      = 65 := by decide
  have e2 : ("\r\nConnection: close\r\n\r\n".toList).length = 23 := by decide
  rw [http_response_formatted_eq]
  unfold http_200
  unfold print_zu at h1
  simp only [List.length_append, e1, e2]
  omega

theorem http_response_eq (g buffer : List Char) :
    http_response g buffer = http_200 (json_response g buffer) := by
  have h := http_response_formatted_length g buffer
  unfold http_response snprintf
  rw [List.take_of_length_le (by unfold BUFFER_SIZE; omega)]
  exact http_response_formatted_eq g buffer

theorem http_200_no_NUL {body : List Char} (hb : NUL ∉ body) : NUL ∉ http_200 body := by
  have e1 : NUL ∉ "HTTP/1.1 200 OK\r\nContent-Type: application/json\r\nContent-Length: ".toList := by
    decide
  have e2 : NUL ∉ "\r\nConnection: close\r\n\r\n".toList := by decide
  have e3 := print_zu_no_NUL body.length
  unfold print_zu at e3
  unfold http_200
  simp only [List.mem_append, not_or]
  exact ⟨⟨⟨e1, e3⟩, e2⟩, hb⟩

/-- The bytes handed to `send` for an answered request. -/
theorem handle_client_data (g bytes : List Char) :
    handle_client g (RecvResult.data bytes)
      = [Action.send (http_200 (json_object (hostname_string g) (sentence_to_send (cstr bytes)))),
         Action.close] := by
  unfold handle_client
  simp only
  rw [http_response_eq, cstr_eq_self (http_200_no_NUL (json_response_no_NUL g _)), json_response_eq]

/-! ## The framing block -/

theorem digit_toNat {d : Char} (h : d.isDigit = true) : 48 ≤ d.toNat ∧ d.toNat ≤ 57 := by
  unfold Char.isDigit at h
  simp only [Bool.and_eq_true, decide_eq_true_eq] at h
  obtain ⟨h1, h2⟩ := h
  rw [ge_iff_le, UInt32.le_def, BitVec.le_def] at h1
  rw [UInt32.le_def, BitVec.le_def] at h2
  exact ⟨h1, h2⟩

/-- A text that begins with a positive decimal integer is converted to a non-zero value. -/
theorem scan_zu_pos {t : List Char} (hpos : PositiveDecimal t) :
    ∃ v, 0 < v ∧ scan_zu t = some v := by
  obtain ⟨hne, hv⟩ := hpos
  cases t with
  | nil => simp at hne
  | cons d t' =>
    have hd : d.isDigit = true := by
      by_contra hnd
      simp [List.takeWhile_cons, hnd] at hne
    obtain ⟨h48, h57⟩ := digit_toNat hd
    have hsp : isspace d = false := by
      simp only [isspace, Bool.or_eq_false_iff, Bool.and_eq_false_iff, decide_eq_false_iff_not]
      omega
    have hminus : d ≠ Char.ofNat 45 := by
      intro e
      have : d.toNat = 45 := by rw [e]; rfl
      omega
    have hplus : d ≠ Char.ofNat 43 := by
      intro e
      have : d.toNat = 43 := by rw [e]; rfl
      omega
    have e1 : (d :: t').dropWhile isspace = d :: t' := by
      simp [List.dropWhile_cons, hsp]
    unfold scan_zu
    simp only [e1, List.head?_cons, Option.some.injEq, hminus, hplus, or_self, if_false,
      decide_False]
    rw [if_neg hne]
    by_cases hbig : 2 ^ 64 ≤ decimal_value (List.takeWhile Char.isDigit (d :: t'))
    · rw [if_pos hbig]
      exact ⟨2 ^ 64 - 1, by decide, rfl⟩
    · rw [if_neg hbig]
      exact ⟨_, hv, by simp⟩

theorem sscanf_content_length_pos {t : List Char} (hpos : PositiveDecimal t) :
    0 < sscanf_content_length ("Content-Length: ".toList ++ t) 0 := by
  have hd : ∃ d t', t = d :: t' ∧ isspace d = false := by
    obtain ⟨hne, _⟩ := hpos
    cases t with
    | nil => simp at hne
    | cons d t' =>
      have hd : d.isDigit = true := by
        by_contra hnd
        simp [List.takeWhile_cons, hnd] at hne
      obtain ⟨h48, h57⟩ := digit_toNat hd
      refine ⟨d, t', rfl, ?_⟩
      simp only [isspace, Bool.or_eq_false_iff, Bool.and_eq_false_iff, decide_eq_false_iff_not]
      omega
  obtain ⟨d, t', rfl, hsp⟩ := hd
  obtain ⟨v, hv, hs⟩ := scan_zu_pos hpos
  have e1 : match_literal "Content-Length:".toList ("Content-Length: ".toList ++ d :: t')
      = some (Char.ofNat 32 :: d :: t') := by
    simp [match_literal]
  have e2 : (Char.ofNat 32 :: d :: t').dropWhile isspace = d :: t' := by
    have : isspace (Char.ofNat 32) = true := by decide
    simp [List.dropWhile_cons, hsp, this]
  unfold sscanf_content_length
  simp only [e1, e2, hs]
  exact hv

theorem strstr_isSome_of_present {n h : List Char} (hn : n <:+: h) : ∃ i, strstr h n = some i := by
  cases hs : strstr h n with
  | none => exact absurd hn (infix_of_strstr_none hs)
  | some i => exact ⟨i, rfl⟩

/-- On a well-framed request the framing block finds the body and a non-zero length. -/
theorem parse_request_framed {buffer a body c t : List Char}
    (hpost : "POST ".toList <:+: buffer)
    (hcl : buffer = c ++ "Content-Length: ".toList ++ t)
    (hclf : FirstOcc "Content-Length: ".toList c t)
    (hpos : PositiveDecimal t)
    (hsplit : buffer = a ++ "\r\n\r\n".toList ++ body)
    (hfirst : FirstOcc "\r\n\r\n".toList a body) :
    ∃ cl, 0 < cl ∧ parse_request buffer = (some (a.length + 4), cl) := by
  obtain ⟨i, hi⟩ := strstr_isSome_of_present hpost
  have h2 : strstr buffer "Content-Length: ".toList = some c.length := by
    rw [hcl]; exact strstr_first hclf
  have h3 : strstr buffer "\r\n\r\n".toList = some a.length := by
    rw [hsplit]; exact strstr_first hfirst
  have h4 : buffer.drop c.length = "Content-Length: ".toList ++ t := by
    rw [hcl, List.append_assoc, List.drop_left]
  refine ⟨sscanf_content_length ("Content-Length: ".toList ++ t) 0,
    sscanf_content_length_pos hpos, ?_⟩
  unfold parse_request
  simp only [hi, h2, h3, h4, Option.map_some']

theorem parse_request_some {buffer : List Char} {hb cl : Nat}
    (h : parse_request buffer = (some hb, cl)) :
    ∃ i, strstr buffer "\r\n\r\n".toList = some i ∧ hb = i + 4 := by
  unfold parse_request at h
  simp only at h
  split at h
  · cases hs : strstr buffer "\r\n\r\n".toList with
    | none =>
      rw [hs] at h
      simp only [Option.map_none', Prod.mk.injEq] at h
      exact absurd h.1 (by simp)
    | some i =>
      rw [hs] at h
      simp only [Option.map_some', Prod.mk.injEq, Option.some.injEq] at h
      exact ⟨i, rfl, h.1.symm⟩
  · simp only [Prod.mk.injEq] at h
    exact absurd h.1 (by simp)

theorem parse_request_none_of_lacking {buffer : List Char}
    (h : ¬ "POST ".toList <:+: buffer ∨ ¬ "Content-Length: ".toList <:+: buffer
      ∨ ¬ "\r\n\r\n".toList <:+: buffer) :
    (parse_request buffer).1 = none := by
  unfold parse_request
  simp only
  split
  · rename_i i j hi hj
    rcases h with h | h | h
    · rw [strstr_eq_none_of_absent h] at hi; cases hi
    · rw [strstr_eq_none_of_absent h] at hj; cases hj
    · rw [strstr_eq_none_of_absent h]; rfl
  · rfl

/-! ## The extraction block -/

theorem received_sentence_of_no_body {buffer : List Char} (h : (parse_request buffer).1 = none) :
    received_sentence buffer = List.replicate MAX_JSON_VALUE_LEN NUL := by
  unfold received_sentence
  rcases hp : parse_request buffer with ⟨hb, cl⟩
  rw [hp] at h
  simp only at h
  subst h
  rfl

theorem sentence_to_send_placeholder {buffer : List Char}
    (h : cstr (received_sentence buffer) = []) : sentence_to_send buffer = PLACEHOLDER := by
  unfold sentence_to_send strlen
  rw [h]
  rfl

theorem sentence_to_send_value {buffer v : List Char}
    (h : cstr (received_sentence buffer) = v) (hv : v ≠ []) : sentence_to_send buffer = v := by
  unfold sentence_to_send strlen
  rw [h]
  rw [if_pos (List.length_pos.mpr hv)]

/-- Whatever the received bytes are, if the text after their first blank line has `v` between
the first `"sentence": "` and the next quote, then `received_sentence` reads as the empty
string or as `v`, and as `v` only when `v` is shorter than 256 bytes. -/
theorem received_sentence_of_body {bytes a body b v rest : List Char}
    (hsplit : bytes = a ++ "\r\n\r\n".toList ++ body)
    (hfirst : FirstOcc "\r\n\r\n".toList a body)
    (hbody : body = b ++ key_pattern "sentence".toList ++ (v ++ DQUOTE :: rest))
    (hbf : FirstOcc (key_pattern "sentence".toList) b (v ++ DQUOTE :: rest))
    (hq : DQUOTE ∉ v) :
    cstr (received_sentence (cstr bytes)) = [] ∨
      (v.length < 256 ∧ cstr (received_sentence (cstr bytes)) = v) := by
  rcases received_sentence_cases (cstr bytes) with h | h
  · left; rw [h, cstr_replicate_nul]
  · obtain ⟨hb, cl, p, w, t, hpr, _, hdrop, hfo, hqw, hwl, hrs⟩ := h
    right
    obtain ⟨i, hi, rfl⟩ := parse_request_some hpr
    have hpre : cstr bytes <+: a ++ "\r\n\r\n".toList ++ body := hsplit ▸ cstr_initial bytes
    obtain ⟨hia, t0, ht0, ht0p⟩ := strstr_within_initial hfirst hpre hi
    have hd : (cstr bytes).drop (i + 4) = t0 := by
      have e4 : ("\r\n\r\n".toList).length = 4 := by decide
      rw [ht0, hia, ← e4, ← List.length_append, List.drop_left]
    rw [hd, search_key_sentence] at hdrop
    rw [search_key_sentence] at hfo
    have h1 : strstr t0 (key_pattern "sentence".toList) = some p.length := by
      rw [hdrop]; exact strstr_first hfo
    have hpre2 : t0 <+: b ++ key_pattern "sentence".toList ++ (v ++ DQUOTE :: rest) :=
      hbody ▸ ht0p
    obtain ⟨hpb, t1, ht1, ht1p⟩ := strstr_within_initial hbf hpre2 h1
    have e : p ++ key_pattern "sentence".toList ++ (w ++ DQUOTE :: t)
        = b ++ key_pattern "sentence".toList ++ t1 := hdrop.symm.trans ht1
    have e3 : w ++ DQUOTE :: t = t1 :=
      (List.append_inj e (by simp only [List.length_append, hpb])).2
    obtain ⟨x, hx⟩ := ht1p
    rw [← e3] at hx
    have hwv : w = v := by
      apply split_unique hqw hq (r := t ++ x) (q := rest)
      simpa using hx
    subst hwv
    have hnul : NUL ∉ w := by
      intro m
      apply nul_not_mem_cstr bytes
      have : w <:+: cstr bytes := by
        rw [ht0, hdrop]
        exact ⟨a ++ "\r\n\r\n".toList ++ p ++ key_pattern "sentence".toList, DQUOTE :: t,
          by simp⟩
      exact this.subset m
    exact ⟨hwl, by rw [hrs, cstr_append_nul _ hnul]⟩

/-! ## The claims -/

/-- **C1** (end-to-end echo).  For every content of `global_hostname` and every received buffer
without `NUL` byte that contains `POST `, whose first `Content-Length: ` is followed by a
positive decimal integer, and in which the text after the first blank line has, right after
its first `"sentence": "`, a non-empty value `s` of fewer than 256 bytes without quote and then
a quote, the handler sends the 200 response whose JSON body is exactly
`{"hostname": "<hostname>", "sentence": "<s>"}` and closes. -/
theorem handle_client_echoes_sentence (g bytes a body b s rest c t : List Char)
    (hnul : NUL ∉ bytes)
    (hpost : "POST ".toList <:+: bytes)
    (hcl : bytes = c ++ "Content-Length: ".toList ++ t)
    (hclf : FirstOcc "Content-Length: ".toList c t)
    (hpos : PositiveDecimal t)
    (hsplit : bytes = a ++ "\r\n\r\n".toList ++ body)
    (hfirst : FirstOcc "\r\n\r\n".toList a body)
    (hbody : body = b ++ key_pattern "sentence".toList ++ (s ++ DQUOTE :: rest))
    (hbf : FirstOcc (key_pattern "sentence".toList) b (s ++ DQUOTE :: rest))
    (hs : s ≠ []) (hs256 : s.length < 256) (hq : DQUOTE ∉ s) :
    handle_client g (RecvResult.data bytes)
      = [Action.send (http_200 (json_object (hostname_string g) s)), Action.close] := by
  rw [handle_client_data, cstr_eq_self hnul]
  obtain ⟨cl, hclpos, hpr⟩ := parse_request_framed hpost hcl hclf hpos hsplit hfirst
  have hd : bytes.drop (a.length + 4) = body := by
    have e4 : ("\r\n\r\n".toList).length = 4 := by decide
    rw [hsplit, ← e4, ← List.length_append, List.drop_left]
  have hsnul : NUL ∉ s := by
    intro m
    apply hnul
    rw [hsplit, hbody]
    simp only [List.mem_append, List.mem_cons]
    tauto
  have hbody' : body = b ++ search_key "sentence".toList ++ (s ++ DQUOTE :: rest) := by
    rw [search_key_sentence]; exact hbody
  have hbf' : FirstOcc (search_key "sentence".toList) b (s ++ DQUOTE :: rest) := by
    rw [search_key_sentence]; exact hbf
  have hrs : received_sentence bytes = s ++ NUL :: List.drop (s.length + 1)
      (List.replicate MAX_JSON_VALUE_LEN NUL) := by
    unfold received_sentence
    rw [hpr]
    simp only
    rw [if_pos hclpos, hd,
      @get_json_string_value_found body "sentence".toList (List.replicate MAX_JSON_VALUE_LEN NUL)
        b s rest MAX_JSON_VALUE_LEN hbody' hbf' hq hs256]
    simp only
    exact strncpy_set DQUOTE rest (by rw [List.length_replicate]; exact hs256)
  have hv : cstr (received_sentence bytes) = s := by rw [hrs, cstr_append_nul _ hsnul]
  rw [sentence_to_send_value hv hs]

set_option maxRecDepth 1000000 in
/-- Witness of C1: the scenario of the specification, body `{"sentence": "Hello world"}`. -/
theorem handle_client_echoes_sentence_witness :
    NUL ∉ sample_post ∧ "POST ".toList <:+: sample_post ∧
    handle_client sample_hostname (RecvResult.data sample_post)
      = [Action.send ("HTTP/1.1 200 OK\r\nContent-Type: application/json\r\nContent-Length: 49\r\nConnection: close\r\n\r\n\x7b\"hostname\": \"myhost\", \"sentence\": \"Hello world\"\x7d".toList),
         Action.close] :=
  ⟨by decide, by decide,
   (handle_client_echoes_sentence sample_hostname sample_post sample_head
      "\x7b\"sentence\": \"Hello world\"\x7d".toList "\x7b".toList "Hello world".toList
      "\x7d".toList "POST /echo HTTP/1.1\r\n".toList
      "27\r\n\r\n\x7b\"sentence\": \"Hello world\"\x7d".toList
      (by decide) (by decide) (by decide) (by decide) (by decide) (by decide) (by decide)
      (by decide) (by decide) (by decide) (by decide) (by decide)).trans (by decide)⟩

/-- **C2** (placeholder on incomplete framing).  For every received buffer that lacks `POST `,
or lacks `Content-Length: `, or lacks the blank line `\r\n\r\n`, whatever else it contains, the
handler answers with the sentence `No sentence received.`. -/
theorem handle_client_placeholder_on_incomplete_framing (g bytes : List Char)
    (h : ¬ "POST ".toList <:+: bytes ∨ ¬ "Content-Length: ".toList <:+: bytes
      ∨ ¬ "\r\n\r\n".toList <:+: bytes) :
    handle_client g (RecvResult.data bytes)
      = [Action.send (http_200 (json_object (hostname_string g) "No sentence received.".toList)),
         Action.close] := by
  have hsub : ∀ n : List Char, ¬ n <:+: bytes → ¬ n <:+: cstr bytes :=
    fun n hn hc => hn (hc.trans (cstr_initial bytes).isInfix)
  have h' : ¬ "POST ".toList <:+: cstr bytes ∨ ¬ "Content-Length: ".toList <:+: cstr bytes
      ∨ ¬ "\r\n\r\n".toList <:+: cstr bytes := by
    rcases h with h | h | h
    · exact Or.inl (hsub _ h)
    · exact Or.inr (Or.inl (hsub _ h))
    · exact Or.inr (Or.inr (hsub _ h))
  have hrs := received_sentence_of_no_body (parse_request_none_of_lacking h')
  have hp : sentence_to_send (cstr bytes) = PLACEHOLDER :=
    sentence_to_send_placeholder (by rw [hrs, cstr_replicate_nul])
  rw [handle_client_data, hp]
  rfl

set_option maxRecDepth 1000000 in
/-- Witness of C2: a GET request carries no `POST ` marker. -/
theorem handle_client_placeholder_on_incomplete_framing_witness :
    ¬ "POST ".toList <:+: sample_get ∧
    handle_client sample_hostname (RecvResult.data sample_get)
      = [Action.send (http_200 (json_object (hostname_string sample_hostname)
          "No sentence received.".toList)), Action.close] :=
  ⟨by decide,
   handle_client_placeholder_on_incomplete_framing sample_hostname sample_get
     (Or.inl (by decide))⟩

/-- **C3** (response framing).  For every content of `global_hostname` (its string has at most
255 bytes) and every answered buffer, the bytes sent are the status line `HTTP/1.1 200 OK`, the
headers `Content-Type: application/json`, `Content-Length: <n>` and `Connection: close`, a
blank line and the JSON body, with `n` the decimal length of that body; and whatever `recv`
returns, nothing is ever sent that is not such a 200 response. -/
theorem handle_client_response_framing (g bytes : List Char) :
    handle_client g (RecvResult.data bytes)
      = [Action.send ("HTTP/1.1 200 OK\r\n".toList
          ++ "Content-Type: application/json\r\n".toList
          ++ "Content-Length: ".toList
          ++ Nat.toDigits 10 (json_response g (cstr bytes)).length ++ "\r\n".toList
          ++ "Connection: close\r\n".toList
          ++ "\r\n".toList
          ++ json_response g (cstr bytes)), Action.close]
    ∧ (hostname_string g).length ≤ 255
    ∧ ∀ r, ∀ act ∈ handle_client g r, act = Action.close ∨
        ∃ body, act = Action.send ("HTTP/1.1 200 OK\r\n".toList
          ++ "Content-Type: application/json\r\n".toList
          ++ "Content-Length: ".toList ++ Nat.toDigits 10 body.length ++ "\r\n".toList
          ++ "Connection: close\r\n".toList ++ "\r\n".toList ++ body) := by
  have key : ∀ body : List Char, "HTTP/1.1 200 OK\r\n".toList
          ++ "Content-Type: application/json\r\n".toList
          ++ "Content-Length: ".toList ++ Nat.toDigits 10 body.length ++ "\r\n".toList
          ++ "Connection: close\r\n".toList ++ "\r\n".toList ++ body = http_200 body := by
    intro body
    unfold http_200
    simp only [List.append_assoc]
    rfl
  refine ⟨?_, hostname_string_length g, ?_⟩
  · rw [key, handle_client_data, json_response_eq]
  · intro r act hact
    cases r with
    | error =>
      left
      simpa [handle_client] using hact
    | data bytes =>
      rw [handle_client_data] at hact
      simp only [List.mem_cons, List.mem_singleton, List.not_mem_nil, or_false] at hact
      rcases hact with h | h
      · right; exact ⟨_, by rw [key]; exact h⟩
      · left; exact h

/-- **C4** (body layout).  For every content of `global_hostname` and every answered buffer, the
JSON body is `{"hostname": "` + h + `", "sentence": "` + v + `"}` with both values copied
verbatim: h is the hostname string, which does not depend on the request, and v is the
extracted sentence when the extraction succeeded with a non-empty value, the placeholder
otherwise. -/
theorem handle_client_body_layout (g bytes : List Char) :
    json_response g (cstr bytes)
      = "\x7b\"hostname\": \"".toList ++ hostname_string g ++ "\", \"sentence\": \"".toList
          ++ sentence_field (cstr bytes) ++ "\"\x7d".toList
    ∧ handle_client g (RecvResult.data bytes)
      = [Action.send (http_200 (json_response g (cstr bytes))), Action.close] := by
  have hv : sentence_to_send (cstr bytes) = sentence_field (cstr bytes) := by
    unfold sentence_to_send sentence_field extracted_sentence received_sentence strlen
    rcases hp : parse_request (cstr bytes) with ⟨hb, cl⟩
    cases hb with
    | none => simp only [cstr_replicate_nul]; rfl
    | some hb =>
      simp only
      by_cases hcl : 0 < cl
      · simp only [gt_iff_lt, hcl, if_true]
        rcases get_json_string_value_cases ((cstr bytes).drop hb) "sentence".toList
            (List.replicate MAX_JSON_VALUE_LEN NUL) MAX_JSON_VALUE_LEN with h | h
        · rw [h]
          simp only [cstr_replicate_nul]
          rfl
        · obtain ⟨p, v, t, _, _, _, _, h5⟩ := h
          rw [h5]
          simp only [if_true]
          by_cases he : cstr ((strncpy (List.replicate MAX_JSON_VALUE_LEN NUL)
              (v ++ DQUOTE :: t) v.length).set v.length NUL) = []
          · rw [he]; rfl
          · rw [if_neg he, if_pos (List.length_pos.mpr he)]
      · simp only [gt_iff_lt, hcl, if_false, cstr_replicate_nul]
        rfl
  refine ⟨?_, ?_⟩
  · rw [json_response_eq, hv]; rfl
  · rw [handle_client_data, json_response_eq]

set_option maxRecDepth 1000000 in
/-- Counterexample to C5 as stated: a read of zero bytes is not dropped; the handler sends the
placeholder response before closing. -/
theorem handle_client_empty_read_is_answered :
    handle_client sample_hostname (RecvResult.data [])
      = [Action.send ("HTTP/1.1 200 OK\r\nContent-Type: application/json\r\nContent-Length: 59\r\nConnection: close\r\n\r\n\x7b\"hostname\": \"myhost\", \"sentence\": \"No sentence received.\"\x7d".toList),
         Action.close] := by
  decide

/-- **C5**, amended (dropped connection).  When the single read returns an error the handler
sends nothing and goes straight to closing the connection.  A read of zero bytes is not an
error for the code: it is answered with the placeholder response, then closed. -/
theorem handle_client_failed_read (g : List Char) :
    handle_client g RecvResult.error = [Action.close]
    ∧ handle_client g (RecvResult.data [])
      = [Action.send (http_200 (json_object (hostname_string g) "No sentence received.".toList)),
         Action.close] := by
  refine ⟨rfl, ?_⟩
  rw [handle_client_data]
  rfl

set_option maxRecDepth 1000000 in
/-- Counterexample to C6 as stated: for a key of 123 bytes without quote the function returns
success with the value `b`, although the pattern `"<key>": "` does not occur in the text. -/
theorem get_json_string_value_long_key :
    DQUOTE ∉ long_key
    ∧ ¬ key_pattern long_key <:+: long_key_text
    ∧ get_json_string_value long_key_text long_key (List.replicate 256 NUL) 256
        = (0, Char.ofNat 98 :: List.replicate 255 NUL) := by
  decide

/-- **C6**, amended (contract of `get_json_string_value`).  For every text, every key of at
most 122 bytes and every destination `vb` (of capacity `vb.length`): when the pattern
`"<key>": "` occurs in the text, its first occurrence is followed by `v` and then a quote,
`v` has no quote and fewer bytes than the capacity, the function returns `0` and leaves `v`
and the terminator in the destination; in every other case it returns `-1` and leaves the
destination as it was. -/
theorem get_json_string_value_contract (text key vb : List Char) (hk : key.length ≤ 122) :
    (∀ p v t, text = p ++ key_pattern key ++ (v ++ DQUOTE :: t)
        → FirstOcc (key_pattern key) p (v ++ DQUOTE :: t)
        → DQUOTE ∉ v → v.length < vb.length
        → get_json_string_value text key vb vb.length
            = (0, v ++ NUL :: vb.drop (v.length + 1)))
    ∧ ((¬ ∃ p v t, text = p ++ key_pattern key ++ (v ++ DQUOTE :: t)
          ∧ FirstOcc (key_pattern key) p (v ++ DQUOTE :: t)
          ∧ DQUOTE ∉ v ∧ v.length < vb.length)
        → get_json_string_value text key vb vb.length = (-1, vb)) := by
  have hsk := search_key_eq hk
  constructor
  · intro p v t ht hf hq hlen
    rw [← hsk] at ht hf
    rw [get_json_string_value_found ht hf hq hlen, strncpy_set DQUOTE t hlen]
  · intro hno
    rcases get_json_string_value_cases text key vb vb.length with h | h
    · exact h
    · exfalso
      obtain ⟨p, v, t, h1, h2, h3, h4, _⟩ := h
      rw [hsk] at h1 h2
      exact hno ⟨p, v, t, h1, h2, h3, h4⟩

set_option maxRecDepth 1000000 in
/-- Witness of C6: the key `sentence` in the text `{"sentence": "Hi"}`, capacity 8. -/
theorem get_json_string_value_contract_witness :
    ("sentence".toList).length ≤ 122
    ∧ get_json_string_value "\x7b\"sentence\": \"Hi\"\x7d".toList "sentence".toList
        (List.replicate 8 NUL) (List.replicate 8 NUL).length
      = (0, "Hi".toList ++ NUL :: (List.replicate 8 NUL).drop ("Hi".toList.length + 1)) :=
  ⟨by decide,
   (get_json_string_value_contract "\x7b\"sentence\": \"Hi\"\x7d".toList "sentence".toList
      (List.replicate 8 NUL) (by decide)).1 "\x7b".toList "Hi".toList "\x7d".toList
      (by decide) (by decide) (by decide) (by decide)⟩

/-- **C7** (oversized value).  For every received buffer in which the text after the first
blank line has, after its first `"sentence": "`, a value of 256 bytes or more before the next
quote, the extraction fails (`-1`, destination untouched) and the handler answers with the
sentence `No sentence received.`: the response is the one of a request without sentence.
The POST marker and the declared length play no part, so they are not assumed. -/
theorem handle_client_oversized_value (g bytes a body b v rest : List Char)
    (hsplit : bytes = a ++ "\r\n\r\n".toList ++ body)
    (hfirst : FirstOcc "\r\n\r\n".toList a body)
    (hbody : body = b ++ key_pattern "sentence".toList ++ (v ++ DQUOTE :: rest))
    (hbf : FirstOcc (key_pattern "sentence".toList) b (v ++ DQUOTE :: rest))
    (hq : DQUOTE ∉ v) (hlen : 256 ≤ v.length) :
    get_json_string_value body "sentence".toList (List.replicate MAX_JSON_VALUE_LEN NUL)
        MAX_JSON_VALUE_LEN = (-1, List.replicate MAX_JSON_VALUE_LEN NUL)
    ∧ handle_client g (RecvResult.data bytes)
      = [Action.send (http_200 (json_object (hostname_string g) "No sentence received.".toList)),
         Action.close] := by
  constructor
  · rcases get_json_string_value_cases body "sentence".toList
        (List.replicate MAX_JSON_VALUE_LEN NUL) MAX_JSON_VALUE_LEN with h | h
    · exact h
    · exfalso
      obtain ⟨p, w, t, h1, h2, h3, h4, _⟩ := h
      rw [search_key_sentence] at h1 h2
      have i1 : strstr body (key_pattern "sentence".toList) = some p.length := by
        rw [h1]; exact strstr_first h2
      have i2 : strstr body (key_pattern "sentence".toList) = some b.length := by
        rw [hbody]; exact strstr_first hbf
      have hpb : p.length = b.length := by
        rw [i1] at i2; exact Option.some.inj i2
      have e : p ++ key_pattern "sentence".toList ++ (w ++ DQUOTE :: t)
          = b ++ key_pattern "sentence".toList ++ (v ++ DQUOTE :: rest) := h1.symm.trans hbody
      have e3 : w ++ DQUOTE :: t = v ++ DQUOTE :: rest :=
        (List.append_inj e (by simp only [List.length_append, hpb])).2
      have hwv : w = v := split_unique h3 hq e3
      rw [hwv] at h4
      unfold MAX_JSON_VALUE_LEN at h4
      omega
  · have hp : sentence_to_send (cstr bytes) = PLACEHOLDER := by
      apply sentence_to_send_placeholder
      rcases received_sentence_of_body hsplit hfirst hbody hbf hq with h | ⟨h, _⟩
      · exact h
      · omega
    rw [handle_client_data, hp]
    rfl

set_option maxRecDepth 1000000 in
/-- Witness of C7: a POST request whose sentence is 256 times the letter `x`. -/
theorem handle_client_oversized_value_witness :
    256 ≤ (List.replicate 256 (Char.ofNat 120)).length
    ∧ handle_client sample_hostname (RecvResult.data sample_post_256)
      = [Action.send (http_200 (json_object (hostname_string sample_hostname)
          "No sentence received.".toList)), Action.close] :=
  ⟨by decide,
   (handle_client_oversized_value sample_hostname sample_post_256 sample_head
      ("\x7b\"sentence\": \"".toList ++ (List.replicate 256 (Char.ofNat 120)
        ++ DQUOTE :: "\x7d".toList))
      "\x7b".toList (List.replicate 256 (Char.ofNat 120)) "\x7d".toList
      (by decide) (by decide) (by decide) (by decide) (by decide) (by decide)).2⟩

/-- **C8** (empty value).  For every received buffer in which the text after the first blank
line has its first `"sentence": "` immediately followed by a quote, `get_json_string_value`
returns success on that text, and the handler nevertheless answers with the sentence
`No sentence received.`, not with the empty string.  The POST marker and the declared length
play no part, so they are not assumed. -/
theorem handle_client_empty_value (g bytes a body b rest : List Char)
    (hsplit : bytes = a ++ "\r\n\r\n".toList ++ body)
    (hfirst : FirstOcc "\r\n\r\n".toList a body)
    (hbody : body = b ++ key_pattern "sentence".toList ++ (DQUOTE :: rest))
    (hbf : FirstOcc (key_pattern "sentence".toList) b (DQUOTE :: rest)) :
    (get_json_string_value body "sentence".toList (List.replicate MAX_JSON_VALUE_LEN NUL)
        MAX_JSON_VALUE_LEN).1 = 0
    ∧ handle_client g (RecvResult.data bytes)
      = [Action.send (http_200 (json_object (hostname_string g) "No sentence received.".toList)),
         Action.close] := by
  constructor
  · have hbody' : body = b ++ search_key "sentence".toList ++ ([] ++ DQUOTE :: rest) := by
      rw [search_key_sentence]; exact hbody
    have hbf' : FirstOcc (search_key "sentence".toList) b ([] ++ DQUOTE :: rest) := by
      rw [search_key_sentence]; exact hbf
    rw [@get_json_string_value_found body "sentence".toList
      (List.replicate MAX_JSON_VALUE_LEN NUL) b [] rest MAX_JSON_VALUE_LEN hbody' hbf'
      (by simp) (by decide)]
  · have hp : sentence_to_send (cstr bytes) = PLACEHOLDER := by
      apply sentence_to_send_placeholder
      rcases @received_sentence_of_body bytes a body b [] rest hsplit hfirst hbody hbf (by simp)
        with h | ⟨_, h⟩
      · exact h
      · exact h
    rw [handle_client_data, hp]
    rfl

set_option maxRecDepth 1000000 in
/-- Witness of C8: a POST request with the body `{"sentence": ""}`. -/
theorem handle_client_empty_value_witness :
    sample_post_empty = sample_head ++ "\r\n\r\n".toList
      ++ ("\x7b".toList ++ key_pattern "sentence".toList ++ (DQUOTE :: "\x7d".toList))
    ∧ handle_client sample_hostname (RecvResult.data sample_post_empty)
      = [Action.send (http_200 (json_object (hostname_string sample_hostname)
          "No sentence received.".toList)), Action.close] :=
  ⟨by decide,
   (handle_client_empty_value sample_hostname sample_post_empty sample_head
      "\x7b\"sentence\": \"\"\x7d".toList "\x7b".toList "\x7d".toList
      (by decide) (by decide) (by decide) (by decide)).2⟩

/-- **C9** (no truncation).  For every content of `global_hostname` (its string has at most 255
bytes) and every received buffer, the complete output of each of the two formats is strictly
shorter than the 4096-byte buffer it is written into, so each `snprintf` stores its complete
output, and the bytes sent are the complete response. -/
theorem handle_client_no_truncation (g bytes : List Char) :
    (json_response_formatted g (cstr bytes)).length < BUFFER_SIZE
    ∧ (http_response_formatted g (cstr bytes)).length < BUFFER_SIZE
    ∧ json_response g (cstr bytes) = json_response_formatted g (cstr bytes)
    ∧ http_response g (cstr bytes) = http_response_formatted g (cstr bytes)
    ∧ handle_client g (RecvResult.data bytes)
        = [Action.send (http_response_formatted g (cstr bytes)), Action.close] := by
  have h1 := json_response_formatted_length g (cstr bytes)
  have h2 := http_response_formatted_length g (cstr bytes)
  have e1 : json_response g (cstr bytes) = json_response_formatted g (cstr bytes) := by
    unfold json_response snprintf
    exact List.take_of_length_le (by unfold BUFFER_SIZE; omega)
  have e2 : http_response g (cstr bytes) = http_response_formatted g (cstr bytes) := by
    unfold http_response snprintf
    exact List.take_of_length_le (by unfold BUFFER_SIZE; omega)
  refine ⟨by unfold BUFFER_SIZE; omega, by unfold BUFFER_SIZE; omega, e1, e2, ?_⟩
  rw [handle_client_data, http_response_formatted_eq, json_response_eq]

/-- On a well-framed request the extraction is run on the text after the first blank line. -/
theorem received_sentence_framed {buffer a body c t : List Char}
    (hpost : "POST ".toList <:+: buffer)
    (hcl : buffer = c ++ "Content-Length: ".toList ++ t)
    (hclf : FirstOcc "Content-Length: ".toList c t)
    (hpos : PositiveDecimal t)
    (hsplit : buffer = a ++ "\r\n\r\n".toList ++ body)
    (hfirst : FirstOcc "\r\n\r\n".toList a body) :
    received_sentence buffer
      = (get_json_string_value body "sentence".toList (List.replicate MAX_JSON_VALUE_LEN NUL)
          MAX_JSON_VALUE_LEN).2 := by
  obtain ⟨cl, hclpos, hpr⟩ := parse_request_framed hpost hcl hclf hpos hsplit hfirst
  have hd : buffer.drop (a.length + 4) = body := by
    have e4 : ("\r\n\r\n".toList).length = 4 := by decide
    rw [hsplit, ← e4, ← List.length_append, List.drop_left]
  unfold received_sentence
  rw [hpr]
  simp only
  rw [if_pos hclpos, hd]

set_option maxRecDepth 1000000 in
/-- Counterexample to C10 as stated: two received buffers that both contain `POST `, both have a
first `Content-Length: ` followed by `27`, and have the same text after their first blank
line, are answered differently, because one of them has a `NUL` byte in its request line. -/
theorem handle_client_NUL_changes_response :
    "POST ".toList <:+: sample_post ∧ "POST ".toList <:+: sample_post_with_NUL
    ∧ sample_post = "POST /echo HTTP/1.1\r\n".toList ++ "Content-Length: ".toList
        ++ "27\r\n\r\n\x7b\"sentence\": \"Hello world\"\x7d".toList
    ∧ FirstOcc "Content-Length: ".toList "POST /echo HTTP/1.1\r\n".toList
        "27\r\n\r\n\x7b\"sentence\": \"Hello world\"\x7d".toList
    ∧ sample_post_with_NUL = ("POST /echo".toList ++ NUL :: " HTTP/1.1\r\n".toList)
        ++ "Content-Length: ".toList
        ++ "27\r\n\r\n\x7b\"sentence\": \"Hello world\"\x7d".toList
    ∧ FirstOcc "Content-Length: ".toList ("POST /echo".toList ++ NUL :: " HTTP/1.1\r\n".toList)
        "27\r\n\r\n\x7b\"sentence\": \"Hello world\"\x7d".toList
    ∧ PositiveDecimal "27\r\n\r\n\x7b\"sentence\": \"Hello world\"\x7d".toList
    ∧ sample_post = sample_head ++ "\r\n\r\n".toList
        ++ "\x7b\"sentence\": \"Hello world\"\x7d".toList
    ∧ FirstOcc "\r\n\r\n".toList sample_head "\x7b\"sentence\": \"Hello world\"\x7d".toList
    ∧ sample_post_with_NUL
        = ("POST /echo".toList ++ NUL :: " HTTP/1.1\r\nContent-Length: 27".toList)
          ++ "\r\n\r\n".toList ++ "\x7b\"sentence\": \"Hello world\"\x7d".toList
    ∧ FirstOcc "\r\n\r\n".toList
        ("POST /echo".toList ++ NUL :: " HTTP/1.1\r\nContent-Length: 27".toList)
        "\x7b\"sentence\": \"Hello world\"\x7d".toList
    ∧ handle_client sample_hostname (RecvResult.data sample_post)
      ≠ handle_client sample_hostname (RecvResult.data sample_post_with_NUL) := by
  decide

/-- **C10**, amended (the declared length is not used beyond being non-zero).  For every content
of `global_hostname` and every two received buffers without `NUL` byte that both contain
`POST `, both have a first `Content-Length: ` followed by a positive decimal integer (not
necessarily the same, nor the real length) and have the same text after their first blank
line, the handler does exactly the same: the responses are byte-identical. -/
theorem handle_client_ignores_declared_length
    (g b1 b2 a1 a2 body c1 t1 c2 t2 : List Char)
    (hn1 : NUL ∉ b1) (hn2 : NUL ∉ b2)
    (hp1 : "POST ".toList <:+: b1) (hp2 : "POST ".toList <:+: b2)
    (hcl1 : b1 = c1 ++ "Content-Length: ".toList ++ t1)
    (hf1 : FirstOcc "Content-Length: ".toList c1 t1) (hpos1 : PositiveDecimal t1)
    (hcl2 : b2 = c2 ++ "Content-Length: ".toList ++ t2)
    (hf2 : FirstOcc "Content-Length: ".toList c2 t2) (hpos2 : PositiveDecimal t2)
    (hs1 : b1 = a1 ++ "\r\n\r\n".toList ++ body) (hfo1 : FirstOcc "\r\n\r\n".toList a1 body)
    (hs2 : b2 = a2 ++ "\r\n\r\n".toList ++ body) (hfo2 : FirstOcc "\r\n\r\n".toList a2 body) :
    handle_client g (RecvResult.data b1) = handle_client g (RecvResult.data b2) := by
  have r1 := received_sentence_framed hp1 hcl1 hf1 hpos1 hs1 hfo1
  have r2 := received_sentence_framed hp2 hcl2 hf2 hpos2 hs2 hfo2
  have hs : sentence_to_send b1 = sentence_to_send b2 := by
    unfold sentence_to_send strlen
    rw [r1, r2]
  rw [handle_client_data, handle_client_data, cstr_eq_self hn1, cstr_eq_self hn2, hs]

set_option maxRecDepth 1000000 in
/-- Witness of C10: the same body sent with the declared lengths 27 and 5. -/
theorem handle_client_ignores_declared_length_witness :
    NUL ∉ sample_post ∧ NUL ∉ sample_post_declared_5
    ∧ PositiveDecimal "27\r\n\r\n\x7b\"sentence\": \"Hello world\"\x7d".toList
    ∧ PositiveDecimal "5\r\n\r\n\x7b\"sentence\": \"Hello world\"\x7d".toList
    ∧ handle_client sample_hostname (RecvResult.data sample_post)
      = handle_client sample_hostname (RecvResult.data sample_post_declared_5) :=
  ⟨by decide, by decide, by decide, by decide,
   handle_client_ignores_declared_length sample_hostname sample_post sample_post_declared_5
     sample_head "POST /echo HTTP/1.1\r\nContent-Length: 5".toList
     "\x7b\"sentence\": \"Hello world\"\x7d".toList
     "POST /echo HTTP/1.1\r\n".toList
     "27\r\n\r\n\x7b\"sentence\": \"Hello world\"\x7d".toList
     "POST /echo HTTP/1.1\r\n".toList
     "5\r\n\r\n\x7b\"sentence\": \"Hello world\"\x7d".toList
     (by decide) (by decide) (by decide) (by decide) (by decide) (by decide) (by decide)
     (by decide) (by decide) (by decide) (by decide) (by decide) (by decide) (by decide)⟩

end HttpService
